import Mathlib

/-!
Verification development for the blindfold-chess move-resolution core
(`candidate_moves.py`, `request_assistant.py`, `feedback_assistant.py`,
`voice_control.py`).

The repository builds on the python-chess rules engine.  Sections 1-3 below
are a shallow embedding of the slice of that engine the repository consumes
(bitboards, geometric attack patterns, the `between` relation, attack /
check / pin queries, legal-move lookup, castling legality and `push`),
modelled from the engine's documented interface semantics.  Sections 4-5
translate the repository's own code.  Python exceptions are modelled with
`Option` / `Except`: a `none` / `.error` result marks the exact places where
the Python code raises.

Squares are the engine's integers 0..63 (a1 = 0, h1 = 7, a8 = 56, h8 = 63),
file of a square is `s % 8`, rank is `s / 8`.  Colors follow the engine:
`true` is white, `false` is black.  Bitboards are `Nat`, exactly as the
engine manipulates plain Python integers.
-/

/-! ### 1. Basic data -/

inductive PieceType where
  | pawn | knight | bishop | rook | queen | king
deriving DecidableEq, Repr

structure Piece where
  pieceType : PieceType
  color : Bool
deriving DecidableEq, Repr

/-- A move as the rules engine represents it: origin square, target square,
optional promotion piece type. -/
structure Move where
  from_square : Nat
  to_square : Nat
  promotion : Option PieceType := none
deriving DecidableEq, Repr

/-- The board state exposed by the rules engine: placement, side to move,
the four castling rights, the en-passant target square, and the move
history (`move_stack`). -/
structure Board where
  piece_at : Nat → Option Piece
  turn : Bool
  castleWK : Bool
  castleWQ : Bool
  castleBK : Bool
  castleBQ : Bool
  ep_square : Option Nat
  history : List Move

/-! ### 2. Bitboards -/

/-- Bitboard with exactly the bits `i < n` for which `p i` holds. -/
def bbOfAux (p : Nat → Bool) : Nat → Nat
  | 0 => 0
  | n + 1 => bbOfAux p n ||| (if p n then 1 <<< n else 0)

/-- Bitboard of the squares satisfying `p`. -/
def bbOf (p : Nat → Bool) : Nat := bbOfAux p 64

/-- The engine's `BB_ALL` constant. -/
def BB_ALL : Nat := bbOf (fun _ => true)

/-- Ascending square list of a bitboard: the engine's `SquareSet` iterates
its squares in increasing order. -/
def bbToList (bb : Nat) : List Nat := (List.range 64).filter bb.testBit

/-! ### 3. Rules-engine model -/

def fileN (s : Nat) : Nat := s % 8
def rankN (s : Nat) : Nat := s / 8

def onBoard (f r : Int) : Bool := 0 ≤ f && f < 8 && 0 ≤ r && r < 8

def sqOf (f r : Int) : Nat := (r * 8 + f).toNat

/-- Target square reached from `s` by a (file, rank) offset, `none` when it
leaves the board. -/
def offsetSq (s : Nat) (df dr : Int) : Option Nat :=
  let f := (fileN s : Int) + df
  let r := (rankN s : Int) + dr
  if onBoard f r then some (sqOf f r) else none

def knightOffsets : List (Int × Int) :=
  [(1, 2), (2, 1), (2, -1), (1, -2), (-1, -2), (-2, -1), (-2, 1), (-1, 2)]

def kingOffsets : List (Int × Int) :=
  [(1, 0), (1, 1), (0, 1), (-1, 1), (-1, 0), (-1, -1), (0, -1), (1, -1)]

def bishopDirs : List (Int × Int) := [(1, 1), (1, -1), (-1, 1), (-1, -1)]
def rookDirs : List (Int × Int) := [(1, 0), (-1, 0), (0, 1), (0, -1)]

def offsetsBB (s : Nat) (offs : List (Int × Int)) : Nat :=
  offs.foldl (fun acc d =>
    match offsetSq s d.1 d.2 with
    | some t => acc ||| (1 <<< t)
    | none => acc) 0

/-- Sliding-attack ray from `s` in direction `(df, dr)` over occupancy
`occ`: squares up to and including the first occupied one. -/
def slideRayAux (occ : Nat) (df dr : Int) : Nat → Nat → Nat
  | _, 0 => 0
  | s, fuel + 1 =>
    match offsetSq s df dr with
    | none => 0
    | some t =>
      if occ.testBit t then (1 <<< t)
      else (1 <<< t) ||| slideRayAux occ df dr t fuel

def slideRay (occ : Nat) (s : Nat) (df dr : Int) : Nat :=
  slideRayAux occ df dr s 7

def slidesBB (occ : Nat) (s : Nat) (dirs : List (Int × Int)) : Nat :=
  dirs.foldl (fun acc d => acc ||| slideRay occ s d.1 d.2) 0

/-- Pawn capture pattern (the engine's `attacks` for a pawn). -/
def pawnAttacksBB (color : Bool) (s : Nat) : Nat :=
  offsetsBB s (if color then [(-1, 1), (1, 1)] else [(-1, -1), (1, -1)])

/-- Squares attacked by piece `p` standing on `s` with occupancy `occ`:
the engine's `attacks_mask`. -/
def attacksBB (occ : Nat) (p : Piece) (s : Nat) : Nat :=
  match p.pieceType with
  | .pawn => pawnAttacksBB p.color s
  | .knight => offsetsBB s knightOffsets
  | .king => offsetsBB s kingOffsets
  | .bishop => slidesBB occ s bishopDirs
  | .rook => slidesBB occ s rookDirs
  | .queen => slidesBB occ s (bishopDirs ++ rookDirs)

/-- Occupied squares of the board (engine `occupied`). -/
def Board.occupiedBB (b : Board) : Nat := bbOf (fun s => (b.piece_at s).isSome)

/-- Occupied squares of one color (engine `occupied_co`). -/
def Board.occupiedCo (b : Board) (c : Bool) : Nat :=
  bbOf (fun s => match b.piece_at s with
    | some p => p.color == c
    | none => false)

/-- Squares holding a given piece kind of a given color (engine
`Board.pieces`). -/
def Board.piecesBB (b : Board) (pt : PieceType) (c : Bool) : Nat :=
  bbOf (fun s => b.piece_at s == some ⟨pt, c⟩)

/-- Engine `SquareSet.between a b`: squares strictly between `a` and `b`
along a shared rank, file or diagonal; empty when the squares are not
aligned. -/
def betweenBB (a b : Nat) : Nat :=
  let df : Int := (fileN b : Int) - fileN a
  let dr : Int := (rankN b : Int) - rankN a
  if a == b then 0
  else if df == 0 || dr == 0 || df.natAbs == dr.natAbs then
    let steps := max df.natAbs dr.natAbs
    (List.range (steps - 1)).foldl (fun acc k =>
      acc ||| (1 <<< sqOf ((fileN a : Int) + (k + 1) * df.sign)
        ((rankN a : Int) + (k + 1) * dr.sign))) 0
  else 0

/-- Engine `ray a b`: the full line through two aligned squares, both
endpoints included; empty when not aligned. -/
def rayBB (a b : Nat) : Nat :=
  let df : Int := (fileN b : Int) - fileN a
  let dr : Int := (rankN b : Int) - rankN a
  if a == b then 0
  else if df == 0 || dr == 0 || df.natAbs == dr.natAbs then
    (1 <<< a) ||| (1 <<< b) ||| slideRay 0 a df.sign dr.sign |||
      slideRay 0 a (-df.sign) (-dr.sign)
  else 0

/-- Engine `is_attacked_by color square`. -/
def Board.is_attacked_by (b : Board) (c : Bool) (sq : Nat) : Bool :=
  (List.range 64).any (fun s =>
    match b.piece_at s with
    | some p => p.color == c && (attacksBB b.occupiedBB p s).testBit sq
    | none => false)

/-- Engine `king color`: the square of the color's king. -/
def Board.kingSq (b : Board) (c : Bool) : Option Nat :=
  (List.range 64).find? (fun s => b.piece_at s == some ⟨.king, c⟩)

/-- Engine `is_check`. -/
def Board.is_check (b : Board) : Bool :=
  match b.kingSq b.turn with
  | some k => b.is_attacked_by (!b.turn) k
  | none => false

/-- Engine `pin color square`: `BB_ALL` when the piece on `square` is not
absolutely pinned to its king, otherwise the ray through king and pinner.
A sniper pins iff `square` lies on one of the king's empty-board line
rays (file, rank, diagonal, checked in that order) and the only occupied
square between the sniper and the king is `square` itself. -/
def Board.pinBB (b : Board) (c : Bool) (sq : Nat) : Nat :=
  match b.kingSq c with
  | none => BB_ALL
  | some k =>
    let groups : List (List (Int × Int) × List PieceType) :=
      [([(0, 1), (0, -1)], [.rook, .queen]),
       ([(1, 0), (-1, 0)], [.rook, .queen]),
       (bishopDirs, [.bishop, .queen])]
    let rec go : List (List (Int × Int) × List PieceType) → Nat
      | [] => BB_ALL
      | (dirs, sliders) :: rest =>
        let rays := slidesBB 0 k dirs
        if rays.testBit sq then
          let sniperList := (bbToList rays).filter (fun sn =>
            match b.piece_at sn with
            | some p => sliders.contains p.pieceType && p.color == !c
            | none => false)
          match sniperList.find? (fun sn =>
            betweenBB sn k &&& (b.occupiedBB ||| (1 <<< sq)) == 1 <<< sq) with
          | some sn => rayBB k sn
          | none => BB_ALL
        else go rest
    go groups

/-- Backrank of the side to promote on. -/
def backrank (c : Bool) (s : Nat) : Bool := rankN s == (if c then 7 else 0)

/-- Engine `is_en_passant`. -/
def Board.is_en_passant (b : Board) (m : Move) : Bool :=
  (b.ep_square == some m.to_square) &&
    (match b.piece_at m.from_square with
     | some p => p.pieceType == .pawn
     | none => false) &&
    ((max m.to_square m.from_square - min m.to_square m.from_square == 7) ||
     (max m.to_square m.from_square - min m.to_square m.from_square == 9)) &&
    !(b.piece_at m.to_square).isSome

/-- Engine `is_capture`: target occupied by the opponent, or en passant. -/
def Board.is_capture (b : Board) (m : Move) : Bool :=
  (match b.piece_at m.to_square with
   | some p => p.color == !b.turn
   | none => false) || b.is_en_passant m

/-- Castling rights query (engine `has_kingside_castling_rights` /
`has_queenside_castling_rights`, after `clean_castling_rights`: the raw
right must be set and king and relevant rook must stand on their home
squares). -/
def Board.has_kingside_castling_rights (b : Board) (c : Bool) : Bool :=
  if c then
    b.castleWK && b.piece_at 4 == some ⟨.king, true⟩ &&
      b.piece_at 7 == some ⟨.rook, true⟩
  else
    b.castleBK && b.piece_at 60 == some ⟨.king, false⟩ &&
      b.piece_at 63 == some ⟨.rook, false⟩

def Board.has_queenside_castling_rights (b : Board) (c : Bool) : Bool :=
  if c then
    b.castleWQ && b.piece_at 4 == some ⟨.king, true⟩ &&
      b.piece_at 0 == some ⟨.rook, true⟩
  else
    b.castleBQ && b.piece_at 60 == some ⟨.king, false⟩ &&
      b.piece_at 56 == some ⟨.rook, false⟩

/-- The kingside castling move of a color, in the engine's king-two-step
encoding. -/
def kingsideCastleMoveFor (c : Bool) : Move :=
  if c then ⟨4, 6, none⟩ else ⟨60, 62, none⟩

def queensideCastleMoveFor (c : Bool) : Move :=
  if c then ⟨4, 2, none⟩ else ⟨60, 58, none⟩

/-- Kingside castling legality for the side to move: rights (with king and
rook in place), transit and landing squares empty, and king start, transit
and landing squares not attacked by the opponent. -/
def Board.kingsideCastleLegal (b : Board) : Bool :=
  let c := b.turn
  let e := if c then 4 else 60
  let f := if c then 5 else 61
  let g := if c then 6 else 62
  b.has_kingside_castling_rights c &&
    !(b.piece_at f).isSome && !(b.piece_at g).isSome &&
    !b.is_attacked_by (!c) e && !b.is_attacked_by (!c) f &&
    !b.is_attacked_by (!c) g

/-- Queenside castling legality: rights, the three squares between king
and rook empty, king start / transit / landing squares unattacked. -/
def Board.queensideCastleLegal (b : Board) : Bool :=
  let c := b.turn
  let e := if c then 4 else 60
  let d := if c then 3 else 59
  let cc := if c then 2 else 58
  let bsq := if c then 1 else 57
  b.has_queenside_castling_rights c &&
    !(b.piece_at d).isSome && !(b.piece_at cc).isSome &&
    !(b.piece_at bsq).isSome &&
    !b.is_attacked_by (!c) e && !b.is_attacked_by (!c) d &&
    !b.is_attacked_by (!c) cc

/-- Engine `is_castling`: a king moving more than one file. -/
def Board.isCastlingShape (b : Board) (m : Move) : Bool :=
  match b.piece_at m.from_square with
  | some p =>
    p.pieceType == .king &&
      (max (fileN m.from_square) (fileN m.to_square)
        - min (fileN m.from_square) (fileN m.to_square) > 1)
  | none => false

/-- Pawn pseudo-legal movement: single push to an empty square, double
push from the home rank over empty squares, or a capture along the pawn's
attack pattern onto an enemy piece or the en-passant square; promotions
exactly on the backrank, restricted to knight/bishop/rook/queen. -/
def Board.pawnPseudoLegal (b : Board) (m : Move) (c : Bool) : Bool :=
  let f := m.from_square
  let t := m.to_square
  let pattern :=
    if c then
      (t == f + 8 && !(b.piece_at t).isSome) ||
      (rankN f == 1 && t == f + 16 && !(b.piece_at (f + 8)).isSome &&
        !(b.piece_at t).isSome) ||
      ((pawnAttacksBB c f).testBit t &&
        ((match b.piece_at t with
          | some q => q.color == !c
          | none => false) || b.ep_square == some t))
    else
      (f == t + 8 && !(b.piece_at t).isSome) ||
      (rankN f == 6 && f == t + 16 && !(b.piece_at (t + 8)).isSome &&
        !(b.piece_at t).isSome) ||
      ((pawnAttacksBB c f).testBit t &&
        ((match b.piece_at t with
          | some q => q.color == !c
          | none => false) || b.ep_square == some t))
  let promoOK :=
    if backrank c t then
      match m.promotion with
      | some pt => pt ∈ [PieceType.knight, .bishop, .rook, .queen]
      | none => false
    else m.promotion == none
  pattern && promoOK

/-- Engine `is_pseudo_legal` for non-castling moves. -/
def Board.pseudoLegalNormal (b : Board) (m : Move) : Bool :=
  match b.piece_at m.from_square with
  | none => false
  | some p =>
    p.color == b.turn &&
    !(match b.piece_at m.to_square with
      | some q => q.color == b.turn
      | none => false) &&
    (match p.pieceType with
     | .pawn => b.pawnPseudoLegal m b.turn
     | _ => m.promotion == none &&
         (attacksBB b.occupiedBB p m.from_square).testBit m.to_square)

/-- The board after a move is played (engine `push`): piece placement with
en-passant capture, castling rook relocation and promotion applied, side
to move flipped, en-passant target recomputed, castling rights cleared for
touched king/rook squares, and the move appended to the history. -/
def Board.boardAfter (b : Board) (m : Move) : Board :=
  match b.piece_at m.from_square with
  | none => b
  | some p =>
    let c := p.color
    let isEp := p.pieceType == .pawn && b.ep_square == some m.to_square &&
      !(b.piece_at m.to_square).isSome &&
      fileN m.to_square != fileN m.from_square
    let capSq := if c then m.to_square - 8 else m.to_square + 8
    let castling := p.pieceType == .king &&
      (max (fileN m.from_square) (fileN m.to_square)
        - min (fileN m.from_square) (fileN m.to_square) > 1)
    let rookFrom := if m.to_square == 6 then 7 else if m.to_square == 2 then 0
      else if m.to_square == 62 then 63 else 56
    let rookTo := if m.to_square == 6 then 5 else if m.to_square == 2 then 3
      else if m.to_square == 62 then 61 else 59
    let newPiece : Piece := match m.promotion with
      | some pt => ⟨pt, c⟩
      | none => p
    let placed : Nat → Option Piece := fun s =>
      if s == m.to_square then some newPiece
      else if s == m.from_square then none
      else if isEp && s == capSq then none
      else if castling && s == rookFrom then none
      else if castling && s == rookTo then some ⟨.rook, c⟩
      else b.piece_at s
    let doublePush := p.pieceType == .pawn &&
      (max m.to_square m.from_square - min m.to_square m.from_square == 16)
    { piece_at := placed
      turn := !b.turn
      castleWK := b.castleWK &&
        !(m.from_square == 4 || m.from_square == 7 ||
          m.to_square == 4 || m.to_square == 7)
      castleWQ := b.castleWQ &&
        !(m.from_square == 4 || m.from_square == 0 ||
          m.to_square == 4 || m.to_square == 0)
      castleBK := b.castleBK &&
        !(m.from_square == 60 || m.from_square == 63 ||
          m.to_square == 60 || m.to_square == 63)
      castleBQ := b.castleBQ &&
        !(m.from_square == 60 || m.from_square == 56 ||
          m.to_square == 60 || m.to_square == 56)
      ep_square := if doublePush then
          some ((m.from_square + m.to_square) / 2)
        else none
      history := b.history ++ [m] }

/-- The mover's king is attacked once the move is made (engine
`is_into_check`). -/
def Board.kingAttackedAfter (b : Board) (m : Move) : Bool :=
  let b2 := b.boardAfter m
  match b2.kingSq b.turn with
  | some k => b2.is_attacked_by (!b.turn) k
  | none => false

/-- Engine `is_legal`. -/
def Board.is_legal (b : Board) (m : Move) : Bool :=
  if b.isCastlingShape m then
    m.promotion == none &&
      ((m == kingsideCastleMoveFor b.turn && b.kingsideCastleLegal) ||
       (m == queensideCastleMoveFor b.turn && b.queensideCastleLegal))
  else
    b.pseudoLegalNormal m && !b.kingAttackedAfter m

/-- Engine `find_move from to promotion`: defaults a pawn move onto a
backrank to a queen promotion; then, per the engine's documented
`_from_chess960` conversion on a standard board, a promotion-free
king-to-rook request is normalized to the king-two-step castling
encoding — (e1, h1) becomes (e1, g1) and (e1, a1) becomes (e1, c1) when
a king stands on e1, with the e8 mirrors for black — and the resulting
move is returned when legal, `IllegalMoveError` (a `ValueError`,
modelled as `none`) otherwise. -/
def Board.find_move (b : Board) (f t : Nat) (promo : Option PieceType) :
    Option Move :=
  let promo2 := if promo == none &&
      (match b.piece_at f with
       | some p => p.pieceType == .pawn
       | none => false) && (rankN t == 0 || rankN t == 7) then
      some PieceType.queen
    else promo
  let kingAt : Nat → Bool := fun s =>
    match b.piece_at s with
    | some p => p.pieceType == .king
    | none => false
  let m : Move :=
    if promo2 == none && f == 4 && kingAt 4 && t == 7 then ⟨4, 6, none⟩
    else if promo2 == none && f == 4 && kingAt 4 && t == 0 then ⟨4, 2, none⟩
    else if promo2 == none && f == 60 && kingAt 60 && t == 63 then
      ⟨60, 62, none⟩
    else if promo2 == none && f == 60 && kingAt 60 && t == 56 then
      ⟨60, 58, none⟩
    else ⟨f, t, promo2⟩
  if b.is_legal m then some m else none

/-- Engine `parse_san "O-O"`: the kingside castling move of the side to
move when legal, a `ValueError` (modelled `none`) otherwise. -/
def Board.parseSanOO (b : Board) : Option Move :=
  let m := kingsideCastleMoveFor b.turn
  if b.is_legal m then some m else none

def Board.parseSanOOO (b : Board) : Option Move :=
  let m := queensideCastleMoveFor b.turn
  if b.is_legal m then some m else none

/-- Engine `peek`: the last move of the history; raises `IndexError` on an
empty move stack, modelled as `none`. -/
def Board.peek (b : Board) : Option Move := b.history.getLast?

def initFilePiece (f : Nat) : PieceType :=
  if f == 0 || f == 7 then .rook
  else if f == 1 || f == 6 then .knight
  else if f == 2 || f == 5 then .bishop
  else if f == 3 then .queen
  else .king

def initPieceAt (s : Nat) : Option Piece :=
  if s < 8 then some ⟨initFilePiece (fileN s), true⟩
  else if s < 16 then some ⟨.pawn, true⟩
  else if 48 ≤ s && s < 56 then some ⟨.pawn, false⟩
  else if 56 ≤ s && s < 64 then some ⟨initFilePiece (fileN s), false⟩
  else none

/-- The standard starting position. -/
def initialBoard : Board :=
  ⟨initPieceAt, true, true, true, true, true, none, []⟩

/-! ### 4. Embedding of candidate_moves.py -/

/-- Python exceptions that the repository can raise while resolving a
request. -/
inductive PyErr where
  | indexError
  | attributeError
  | assertionError
  | recursionError
deriving DecidableEq, Repr

/-- The `PIECES` dictionary of `candidate_moves.py`. -/
def PIECES_map : List (String × PieceType) :=
  [("pawn", .pawn), ("knight", .knight), ("bishop", .bishop),
   ("rook", .rook), ("queen", .queen), ("king", .king)]

def FILE_names : List String := ["a", "b", "c", "d", "e", "f", "g", "h"]
def RANK_names : List String := ["1", "2", "3", "4", "5", "6", "7", "8"]

def fileIndex (tok : String) : Option Nat := FILE_names.findIdx? (· == tok)
def rankIndex (tok : String) : Option Nat := RANK_names.findIdx? (· == tok)

/-- The `FILES` dictionary: file-name key to file bitboard.  An absent key
is a Python `KeyError`; the callers only pass validated keys, so the `0`
default is unreachable from the embedded code. -/
def FILESbb (tok : String) : Nat :=
  match fileIndex tok with
  | some i => bbOf (fun q => fileN q == i)
  | none => 0

/-- The `RANKS` dictionary: rank-name key to rank bitboard. -/
def RANKSbb (tok : String) : Nat :=
  match rankIndex tok with
  | some i => bbOf (fun q => rankN q == i)
  | none => 0

/-- Translation of `is_possible_move`: pawns by the source's bitboard
shifts (forward advances only), every other piece by the rules engine's
attack set on an otherwise empty board. -/
def is_possible_move (piece : Piece) (from_square to_square : Nat) : Bool :=
  if piece.pieceType == .pawn then
    let bb_from := 1 <<< from_square
    let bb_to := 1 <<< to_square
    let legal_advances :=
      if piece.color then
        (bb_from <<< 8) ||| ((bb_from <<< 16) &&& RANKSbb "4")
      else
        (bb_from >>> 8) ||| ((bb_from >>> 16) &&& RANKSbb "5")
    legal_advances &&& bb_to != 0
  else
    (attacksBB 0 piece from_square).testBit to_square

/-- Translation of `blocking_squares`.  The source reads
`board.piece_at(from_square)` and hands it to `is_possible_move`, which
dereferences `piece.piece_type`; an empty origin square therefore raises
`AttributeError`, modelled as `none`. -/
def blocking_squares (board : Board) (from_square to_square : Nat) :
    Option Nat :=
  match board.piece_at from_square with
  | none => none
  | some from_piece =>
    some (if is_possible_move from_piece from_square to_square then
      let piece_squares := (bbToList (betweenBB from_square to_square)).foldl
        (fun acc sq =>
          if (board.piece_at sq).isSome then acc ||| (1 <<< sq) else acc) 0
      match board.piece_at to_square with
      | some to_piece =>
        if from_piece.color == to_piece.color then
          piece_squares ||| (1 <<< to_square)
        else piece_squares
      | none => piece_squares
    else 0)

/-- The `SpecificSquares` record: a partial square filter. -/
structure SpecificSquares where
  color : Bool
  piece : Option String := none
  file : Option String := none
  rank : Option String := none
deriving DecidableEq, Repr

/-- Python truthiness of a `SpecificSquares` (`__bool__`): some field is
set. -/
def SpecificSquares.truthy (s : SpecificSquares) : Bool :=
  s.piece.isSome || s.file.isSome || s.rank.isSome

/-- Translation of `SpecificSquares.find_candidate_squares`. -/
def SpecificSquares.find_candidate_squares (self : SpecificSquares)
    (board : Board) : Nat :=
  match self.file, self.piece, self.rank with
  | some f, none, none => board.piecesBB .pawn self.color &&& FILESbb f
  | file?, piece?, rank? =>
    let file_squares := match file? with
      | some f => FILESbb f
      | none => BB_ALL
    let piece_squares := match piece? with
      | some pname =>
        board.piecesBB ((PIECES_map.lookup pname).getD .pawn) self.color
      | none => BB_ALL
    let rank_squares := match rank? with
      | some r => RANKSbb r
      | none => BB_ALL
    piece_squares &&& file_squares &&& rank_squares

/-- The `RejectedMove` record: a considered origin/destination pair and
its rejection diagnostics.  The Python object also keeps the board
reference and an always-`None` promotion; neither carries information, so
they are omitted here. -/
structure RejectedMove where
  from_square : Nat
  to_square : Nat
  possible : Bool
  captures : Bool
  blocking_pieces : Nat
  still_in_check : Bool
  absolute_pin : Bool
deriving DecidableEq, Repr

/-- Translation of `RejectedMove.__init__`; `none` models the
`AttributeError` raised when the origin square is empty. -/
def RejectedMove.make (board : Board) (from_square to_square : Nat) :
    Option RejectedMove :=
  match board.piece_at from_square with
  | none => none
  | some from_piece =>
    match blocking_squares board from_square to_square with
    | none => none
    | some bp =>
      some { from_square := from_square
             to_square := to_square
             possible := is_possible_move from_piece from_square to_square
             captures := (board.piece_at to_square).isSome
             blocking_pieces := bp
             still_in_check := board.is_attacked_by (!board.turn) to_square
             absolute_pin := board.pinBB from_piece.color from_square != BB_ALL }

/-- The `CastleMove` record.  When castling rights are missing the Python
constructor leaves `blocking_pieces`, `through_check` and `into_check`
unassigned; they are defaulted here, and the explanation generator never
reads them in that case because the missing-rights sentence
short-circuits. -/
structure CastleMove where
  side : String
  right_to_castle : Bool := false
  blocking_pieces : Nat := 0
  in_check : Bool := false
  through_check : Bool := false
  into_check : Bool := false
deriving DecidableEq, Repr

/-- Translation of `CastleMove._castle_conditions`. -/
def castleConditions (board : Board) (side : String) (in_check : Bool)
    (from_sq through_sq to_sq : Nat) : CastleMove :=
  let right := if side == "king" then
      board.has_kingside_castling_rights board.turn
    else board.has_queenside_castling_rights board.turn
  if right then
    let bp := match blocking_squares board from_sq through_sq with
      | some bb => bb
      | none => 0
    let bp := if (board.piece_at to_sq).isSome then bp ||| (1 <<< to_sq)
      else bp
    { side := side, right_to_castle := true, blocking_pieces := bp,
      in_check := in_check,
      through_check := board.is_attacked_by (!board.turn) through_sq,
      into_check := board.is_attacked_by (!board.turn) to_sq }
  else { side := side, right_to_castle := false, in_check := in_check }

/-- Translation of `CastleMove.__init__` (`side` is always `"king"` or
`"queen"` where the source constructs one). -/
def CastleMove.make (board : Board) (side : String) : CastleMove :=
  let in_check := board.is_check
  if side == "king" then
    if board.turn then castleConditions board side in_check 4 5 6
    else castleConditions board side in_check 60 61 62
  else
    if board.turn then castleConditions board side in_check 4 3 2
    else castleConditions board side in_check 60 59 58

/-- The parsed shape of a directional move command (`CommandMove`'s own
attributes). -/
structure CommandMoveSpec where
  from_where : SpecificSquares
  to_where : SpecificSquares
  captures : Bool
  promotes_to : Option String
deriving DecidableEq, Repr

/-- Outcome of classifying one (origin, destination) pair in
`CommandMove.consider_moves`. -/
inductive Classified where
  | cand (m : Move)
  | rej (r : RejectedMove)
deriving DecidableEq, Repr

/-- One iteration of the source's nested loop: `find_move`, the
capture-intent re-raise, and the `except ValueError` handler building a
`RejectedMove`. -/
def considerPair (board : Board) (captures : Bool)
    (promo : Option PieceType) (f t : Nat) : Option Classified :=
  match board.find_move f t promo with
  | some candidate =>
    if captures && !(board.is_capture candidate) then
      (RejectedMove.make board f t).map .rej
    else some (.cand candidate)
  | none => (RejectedMove.make board f t).map .rej

/-- Inner loop of `consider_moves` over the destination squares for a
fixed origin square. -/
def considerInner (board : Board) (captures : Bool)
    (promo : Option PieceType) (f : Nat) :
    List Nat → Option (List Move × List RejectedMove)
  | [] => some ([], [])
  | t :: ts =>
    match considerPair board captures promo f t with
    | none => none
    | some (.cand m) =>
      (considerInner board captures promo f ts).map
        (fun p => (m :: p.1, p.2))
    | some (.rej r) =>
      (considerInner board captures promo f ts).map
        (fun p => (p.1, r :: p.2))

/-- Outer loop of `consider_moves` over the origin squares. -/
def considerLoop (board : Board) (captures : Bool)
    (promo : Option PieceType) :
    List Nat → List Nat → Option (List Move × List RejectedMove)
  | [], _ => some ([], [])
  | f :: fs, ts =>
    match considerInner board captures promo f ts with
    | none => none
    | some p =>
      (considerLoop board captures promo fs ts).map
        (fun q => (p.1 ++ q.1, p.2 ++ q.2))

/-- The promotion piece a command passes to `find_move`:
`PIECES.get(self.promotes_to)` (absent key or no intent give `None`). -/
def CommandMoveSpec.promoPiece (self : CommandMoveSpec) : Option PieceType :=
  match self.promotes_to with
  | some s => PIECES_map.lookup s
  | none => none

/-- Translation of `CommandMove.consider_moves`: resolve both
specifications, look up the promotion piece (`PIECES.get`), and classify
the Cartesian product.  `none` models the `AttributeError` crash of
`RejectedMove` on an empty origin square. -/
def CommandMoveSpec.consider_moves (self : CommandMoveSpec)
    (board : Board) : Option (List Move × List RejectedMove) :=
  let from_squares := bbToList (self.from_where.find_candidate_squares board)
  let to_squares := bbToList (self.to_where.find_candidate_squares board)
  considerLoop board self.captures self.promoPiece from_squares to_squares

/-- Translation of `CastleCommand.consider_moves`: `side` is `none` for
"try both sides". -/
def castleConsider (board : Board) (side : Option String) :
    List Move × List CastleMove :=
  let kingPart : List Move × List CastleMove :=
    if side == some "king" || side == none then
      match board.parseSanOO with
      | some m => ([m], [])
      | none => ([], [CastleMove.make board "king"])
    else ([], [])
  let queenPart : List Move × List CastleMove :=
    if side == some "queen" || side == none then
      match board.parseSanOOO with
      | some m => ([m], [])
      | none => ([], [CastleMove.make board "queen"])
    else ([], [])
  (kingPart.1 ++ queenPart.1, kingPart.2 ++ queenPart.2)

def fileStr (s : Nat) : String := FILE_names.getD (fileN s) "a"
def rankStr (s : Nat) : String := RANK_names.getD (rankN s) "1"

/-- Translation of `take_last`: synthesize the command taking the
opponent's last-moved piece.  `board.peek()` on an empty move stack
raises `IndexError`, modelled as `.error .indexError`. -/
def take_last (taker : SpecificSquares) (board : Board)
    (say_promotes : Option String) : Except PyErr CommandMoveSpec :=
  match board.peek with
  | none => .error .indexError
  | some last =>
    let takee : SpecificSquares :=
      ⟨board.turn, none, some (fileStr last.to_square),
        some (rankStr last.to_square)⟩
    .ok ⟨taker, takee, true, say_promotes⟩

/-! ### 5. Embedding of request_assistant.py, feedback_assistant.py and
voice_control.py -/

def TAKE_TOKENS : List String := ["takes", "captures"]
def PROMOTE_TOKENS : List String := ["promote", "equals"]
def KINGSIDE_TOKENS : List String := ["king", "short"]
def QUEENSIDE_TOKENS : List String := ["queen", "long"]

def WRITTEN_NUMS : List (String × String) :=
  [("one", "1"), ("two", "2"), ("three", "3"), ("four", "4"),
   ("five", "5"), ("six", "6"), ("seven", "7"), ("eight", "8")]

def emptySpec (turn : Bool) : SpecificSquares := ⟨turn, none, none, none⟩

/-- Membership test `token in PIECES or token in FILES or token in RANKS`
used at the `locations_in_tokens` recursion point. -/
def tokenKeyword (tok : String) : Bool :=
  (PIECES_map.lookup tok).isSome || (fileIndex tok).isSome ||
    (rankIndex tok).isSome

/-- The token loop of `locations_in_tokens`, carrying the specification
accumulated so far.  On the `else` branch the source recurses on
`tokens[i:]` — the current suffix when the offending token is a
piece/file/rank keyword, the remainder after it otherwise — and stops;
the recursion is abstracted by `recurse` (already color-flipped). -/
def scanGo (recurse : List String → Option (List SpecificSquares)) :
    SpecificSquares → List String → Option (List SpecificSquares)
  | loc, [] => some (if loc.truthy then [loc] else [])
  | loc, tok :: rest =>
    if (PIECES_map.lookup tok).isSome && !loc.truthy then
      scanGo recurse { loc with piece := some tok } rest
    else if tok == "on" then
      scanGo recurse loc rest
    else if (fileIndex tok).isSome && loc.file == none && loc.rank == none then
      scanGo recurse { loc with file := some tok } rest
    else if (WRITTEN_NUMS.lookup tok).isSome && loc.rank == none then
      scanGo recurse { loc with rank := WRITTEN_NUMS.lookup tok } rest
    else
      let suffix := if tokenKeyword tok then tok :: rest else rest
      match recurse suffix with
      | some locs => some (if loc.truthy then loc :: locs else locs)
      | none => none

/-- Translation of `locations_in_tokens`, made total with a fuel
parameter: every recursive call consumes one unit, and `none` models the
Python `RecursionError`.  A terminating run recurses on strictly shorter
suffixes, so `tokens.length + 1` fuel is exhausted exactly when the
Python original recurses forever. -/
def locations_in_tokens_fuel :
    Nat → List String → Bool → Option (List SpecificSquares)
  | 0, _, _ => none
  | fuel + 1, tokens, turn =>
    if tokens.isEmpty then some []
    else scanGo (fun s => locations_in_tokens_fuel fuel s (!turn))
      (emptySpec turn) tokens

/-- Parsed result of `decipher_request`: the `"why"` inquiry, a resolved
directional move command, or a resolved castle command. -/
inductive Deciphered where
  | why
  | move (cmd : CommandMoveSpec) (candidates : List Move)
      (rejects : List RejectedMove)
  | castle (side : Option String) (candidates : List Move)
      (rejects : List CastleMove)
deriving DecidableEq, Repr

/-- Python `str.split()` with no argument: split on runs of whitespace,
discarding leading and trailing whitespace.  `word` accumulates the
current token's characters in reverse. -/
def pySplitAux : List Char → List Char → List String
  | [], word => if word.isEmpty then [] else [String.mk word.reverse]
  | c :: cs, word =>
    if c == ' ' then
      if word.isEmpty then pySplitAux cs []
      else String.mk word.reverse :: pySplitAux cs []
    else pySplitAux cs (c :: word)

def pySplit (s : String) : List String := pySplitAux s.toList []

/-- Shared tail of `decipher_request`: `command_move.consider_moves()`
followed by returning the command. -/
def finishMove (board : Board) (cmd : CommandMoveSpec) :
    Except PyErr Deciphered :=
  match cmd.consider_moves board with
  | some p => .ok (.move cmd p.1 p.2)
  | none => .error .attributeError

/-- Translation of `decipher_request`.  Tokenisation is Python
`str.split()` (`pySplit`).  The `locations[0]` / `locations[1]`
subscripts on too-short lists raise `IndexError`, the one-specification
fall-through is the source's `assert False`, and a parse that never
terminates is the Python `RecursionError`. -/
def decipherRequest (board : Board) (request : String) :
    Except PyErr Deciphered :=
  if request == "why" then .ok .why
  else
    let tokens := pySplit request
    if tokens.contains "castle" then
      let side := if tokens.any (KINGSIDE_TOKENS.contains ·) then some "king"
        else if tokens.any (QUEENSIDE_TOKENS.contains ·) then some "queen"
        else none
      let p := castleConsider board side
      .ok (.castle side p.1 p.2)
    else
      let does_take := tokens.any (TAKE_TOKENS.contains ·)
      let does_promote := tokens.any (PROMOTE_TOKENS.contains ·)
      let say_promotes := if does_promote then tokens.getLast? else none
      let loc_tokens := if does_promote then tokens.dropLast else tokens
      match locations_in_tokens_fuel (loc_tokens.length + 1) loc_tokens
        board.turn with
      | none => .error .recursionError
      | some locations =>
        if locations.length == 1 then
          match locations with
          | loc0 :: _ =>
            if loc0.file.isSome && loc0.rank.isSome then
              let from_piece := (loc0.piece).getD "pawn"
              let to_where : SpecificSquares :=
                { loc0 with color := !board.turn, piece := none }
              let from_where : SpecificSquares :=
                ⟨board.turn, some from_piece, none, none⟩
              finishMove board ⟨from_where, to_where, does_take, say_promotes⟩
            else if does_take then
              match take_last loc0 board say_promotes with
              | .error e => .error e
              | .ok cmd => finishMove board cmd
            else .error .assertionError
          | [] => .error .indexError
        else
          match locations with
          | loc0 :: loc1 :: _ =>
            finishMove board ⟨loc0, loc1, does_take, say_promotes⟩
          | _ => .error .indexError

/-- Board effect of `voice_control.respond_to_command`: exactly one
candidate is spoken and pushed; zero or several candidates leave the
board untouched (only feedback is spoken).  The spoken strings are
text-to-speech output outside this core's state and are not modelled. -/
def respond_to_command (candidates : List Move) (board : Board) : Board :=
  match candidates with
  | [m] => board.boardAfter m
  | _ => board

/-- Translation of `feedback_assistant.explain_no_castle`, returning the
sentences in the order they are spoken.  Only the missing-rights branch
returns early in the source; each later condition speaks
independently. -/
def explain_no_castle (rejects : List CastleMove) : List String :=
  if rejects.any (fun m => !m.right_to_castle) then
    ["You have already moved your king or rook."]
  else
    (if rejects.any (fun m => m.blocking_pieces != 0) then
      ["The path between your king and rook is not clear of pieces."]
    else []) ++
    (if rejects.any (fun m => m.in_check) then
      ["Your king is still in check."]
    else []) ++
    (if rejects.any (fun m => m.through_check) then
      ["You\x27re attempting to castle through check."]
    else []) ++
    (if rejects.any (fun m => m.into_check) then
      ["You\x27re attempting to castle into check."]
    else [])

/-! ### 6. Supporting definitions for the claims -/

def exceptDecEq {ε α : Type} [DecidableEq ε] [DecidableEq α] :
    DecidableEq (Except ε α) := fun x y =>
  match x, y with
  | .error a, .error b =>
    if h : a = b then isTrue (by rw [h])
    else isFalse (fun hc => by cases hc; exact h rfl)
  | .ok a, .ok b =>
    if h : a = b then isTrue (by rw [h])
    else isFalse (fun hc => by cases hc; exact h rfl)
  | .error _, .ok _ => isFalse (fun hc => by cases hc)
  | .ok _, .error _ => isFalse (fun hc => by cases hc)

instance : DecidableEq (Except PyErr Deciphered) := exceptDecEq
instance : DecidableEq (Except PyErr CommandMoveSpec) := exceptDecEq

/-- Cartesian product of the origin and destination square lists, in
the source's iteration order (origin squares outer, destination squares
inner). -/
def prodPairs : List Nat → List Nat → List (Nat × Nat)
  | [], _ => []
  | f :: fs, ts => ts.map (fun t => (f, t)) ++ prodPairs fs ts

/-- The (origin, destination) pairs a directional command enumerates on
a board. -/
def CommandMoveSpec.productPairs (self : CommandMoveSpec) (board : Board) :
    List (Nat × Nat) :=
  prodPairs (bbToList (self.from_where.find_candidate_squares board))
    (bbToList (self.to_where.find_candidate_squares board))

/-- Candidate component of a classification outcome. -/
def candOf : Classified → Option Move
  | .cand m => some m
  | .rej _ => none

/-- Reject component of a classification outcome. -/
def rejOf : Classified → Option RejectedMove
  | .rej r => some r
  | .cand _ => none

/-- Classification of one product pair, candidate side: the candidate
entry (if any) that `consider_moves` records for the pair. -/
def candFun (b : Board) (cap : Bool) (pr : Option PieceType)
    (p : Nat × Nat) : Option Move :=
  (considerPair b cap pr p.1 p.2).bind candOf

/-- Classification of one product pair, reject side: the rejected entry
(if any) that `consider_moves` records for the pair. -/
def rejFun (b : Board) (cap : Bool) (pr : Option PieceType)
    (p : Nat × Nat) : Option RejectedMove :=
  (considerPair b cap pr p.1 p.2).bind rejOf

/-- Castle-legal position: white king e1 and rook h1 with kingside
castling rights, black king e8, white to move. -/
def castleOKBoardPieces : List (Nat × Piece) :=
  [(4, ⟨.king, true⟩), (7, ⟨.rook, true⟩), (60, ⟨.king, false⟩)]

def castleOKBoard : Board :=
  ⟨fun s => castleOKBoardPieces.lookup s, true, true, false, false, false,
    none, []⟩

/-- The command `decipher_request` builds for the SAN-shorthand request
"king h one": origin "any white king", destination h1. -/
def cmdCastleSAN : CommandMoveSpec :=
  ⟨⟨true, some "king", none, none⟩, ⟨false, none, some "h", some "1"⟩,
    false, none⟩

/-- A well-formed `SpecificSquares`: every set field names a valid
dictionary key, the invariant installed by the Python constructor's
`assert`s and maintained by the parser. -/
def SpecificSquares.WF (s : SpecificSquares) : Prop :=
  (∀ pn, s.piece = some pn → (PIECES_map.lookup pn).isSome = true) ∧
  (∀ fn, s.file = some fn → (fileIndex fn).isSome = true) ∧
  (∀ rn, s.rank = some rn → (rankIndex rn).isSome = true)

/-- Specification-side square matcher, written from the spec's words:
an empty specification matches every square; a file-only specification
matches the given color's pawns on that file; otherwise a square must
pass every set filter (piece kind of the given color, file, rank). -/
def matchesSpec (spec : SpecificSquares) (board : Board) (sq : Nat) : Prop :=
  if spec.piece = none ∧ spec.file = none ∧ spec.rank = none then True
  else if spec.piece = none ∧ spec.file ≠ none ∧ spec.rank = none then
    ∃ fn, spec.file = some fn ∧
      board.piece_at sq = some ⟨.pawn, spec.color⟩ ∧
      fileIndex fn = some (fileN sq)
  else
    (∀ pn, spec.piece = some pn →
      ∃ pt, PIECES_map.lookup pn = some pt ∧
        board.piece_at sq = some ⟨pt, spec.color⟩) ∧
    (∀ fn, spec.file = some fn → fileIndex fn = some (fileN sq)) ∧
    (∀ rn, spec.rank = some rn → rankIndex rn = some (rankN sq))

/-- Directional command "pawn on the e-file takes on e4": capture intent
with a legal but non-capturing matching move on the initial position. -/
def cmdCap : CommandMoveSpec :=
  ⟨⟨true, none, some "e", none⟩, ⟨false, none, some "e", some "4"⟩,
    true, none⟩

/-- The reject that `consider_moves` records for the pair (e2, e4) of
`cmdCap` on the initial position. -/
def rejE2E4 : RejectedMove := ⟨12, 28, true, false, 0, false, false⟩

/-- Position with white king e1, rook h1, bishop f1, black king e8 and
black rook e4: white keeps kingside castling rights, the castle path is
blocked by the bishop, and the king is in check from the rook. -/
def castleBoardPieces : List (Nat × Piece) :=
  [(4, ⟨.king, true⟩), (7, ⟨.rook, true⟩), (5, ⟨.bishop, true⟩),
   (60, ⟨.king, false⟩), (28, ⟨.rook, false⟩)]

def castleBoard : Board :=
  ⟨fun s => castleBoardPieces.lookup s, true, true, false, false, false,
    none, []⟩

/-- The castle reject produced on `castleBoard`: rights kept, path
blocked on f1 (bit 5, value 32), king in check. -/
def cmBlockedChecked : CastleMove := ⟨"king", true, 32, true, false, false⟩

/-- The Python `locations_in_tokens` never returns on this input: every
fuel bound is exhausted (`RecursionError`). -/
def divergesOn (tokens : List String) (turn : Bool) : Prop :=
  ∀ fuel, locations_in_tokens_fuel fuel tokens turn = none

/-! ### 7. Bitboard lemmas -/

theorem testBit_bbOfAux (p : Nat → Bool) (n i : Nat) :
    (bbOfAux p n).testBit i = (decide (i < n) && p i) := by
  induction n with
  | zero => simp [bbOfAux]
  | succ n ih =>
    simp only [bbOfAux, Nat.testBit_or, ih]
    have h2 : (if p n then 1 <<< n else 0 : Nat).testBit i
        = (p n && decide (i = n)) := by
      by_cases hp : p n
      · simp [hp, Nat.shiftLeft_eq, Nat.testBit_two_pow, eq_comm]
      · simp [hp]
    rw [h2]
    by_cases hin : i = n
    · subst hin; simp
    · by_cases h : i < n
      · have h1 : i < n + 1 := by omega
        simp [h, hin, h1]
      · have h1 : ¬ i < n + 1 := by omega
        simp [h, hin, h1]

theorem testBit_bbOf (p : Nat → Bool) (i : Nat) :
    (bbOf p).testBit i = (decide (i < 64) && p i) :=
  testBit_bbOfAux p 64 i

theorem testBit_one_shift (x i : Nat) :
    ((1 <<< x : Nat)).testBit i = decide (x = i) := by
  simp [Nat.shiftLeft_eq, Nat.testBit_two_pow]

theorem mem_bbToList {bb i : Nat} :
    i ∈ bbToList bb ↔ i < 64 ∧ bb.testBit i = true := by
  simp [bbToList, List.mem_filter, List.mem_range]

/-! ### 8. Claim theorems -/

/-- Claim C2, counterexample: the claim asserts that a pawn away from its
start rank has `is_possible_move` true for the two diagonal
capture-pattern squares.  For the white pawn pattern on e4 (square 28)
and destination d5 (square 35) the function returns `false`, although d5
is exactly a diagonal capture-pattern square of that pawn (second
conjunct): the pawn branch of the source builds forward advances only. -/
theorem c2_counterexample :
    is_possible_move ⟨PieceType.pawn, true⟩ 28 35 = false ∧
    (attacksBB 0 ⟨PieceType.pawn, true⟩ 28).testBit 35 = true := by
  decide

set_option maxHeartbeats 4000000 in
set_option maxRecDepth 10000 in
/-- Claim C2 (amended): for every pawn and every pair of squares,
`is_possible_move` holds exactly for the one-step forward square, plus
the two-step forward square when the pawn stands on its start rank
(white from rank 2, black symmetric from rank 7); the diagonal
capture-pattern squares are never included. -/
theorem c2_pawn_possible_iff :
    ∀ (c : Bool) (f t : Fin 64),
      is_possible_move ⟨PieceType.pawn, c⟩ f.val t.val = true ↔
        (if c then
          t.val = f.val + 8 ∨ (rankN f.val = 1 ∧ t.val = f.val + 16)
        else
          f.val = t.val + 8 ∨ (rankN f.val = 6 ∧ f.val = t.val + 16)) := by
  decide

/-- Claim C6 (code bug): the spec promises that resolving a directional
move command never crashes, even when an enumerated origin square is
unoccupied.  On the initial position the spoken request "four e five"
resolves the origin specification to the empty fourth rank; classifying
the first pair (a4, e5) constructs a `RejectedMove` whose
`is_possible_move` call dereferences `None`, the Python
`AttributeError`, modelled here as the `.attributeError` outcome. -/
theorem c6_unoccupied_origin_crash :
    decipherRequest initialBoard "four e five" =
      Except.error PyErr.attributeError := by
  decide

/-- Claim C7, counterexample: the literal request "e2 e4" is not
recognized by the token scanner ("e2" is neither a piece, file, rank nor
number word), so zero specifications are produced and the source crashes
on `locations[0]` with `IndexError` instead of yielding a candidate. -/
theorem c7_counterexample :
    decipherRequest initialBoard "e2 e4" = Except.error PyErr.indexError := by
  decide

/-- Claim C7 (amended): parsing the spoken-form request "e two e four" on
the initial position yields exactly one legal candidate, equal to the
rules engine's own move e2-e4, and executing that candidate through
`respond_to_command` produces exactly the board obtained by pushing the
move directly via the rules engine.  (The literal string "e2 e4" instead
raises `IndexError`, see the counterexample.) -/
theorem c7_roundtrip :
    decipherRequest initialBoard "e two e four" =
      Except.ok (.move
        ⟨⟨true, none, some "e", some "2"⟩, ⟨false, none, some "e", some "4"⟩,
          false, none⟩
        [⟨12, 28, none⟩] []) ∧
    respond_to_command [⟨12, 28, none⟩] initialBoard =
      initialBoard.boardAfter ⟨12, 28, none⟩ := by
  exact ⟨by decide, rfl⟩

/-- Claim C8: a capture-intent request carrying a single specification
(here "knight takes") parsed while the move history is empty fails with
the engine's explicitly signalled empty-stack `IndexError` from `peek`,
a defined deterministic outcome, not an undefined-state fault: the
take-last synthesis returns before reading any other state. -/
theorem c8_take_last_empty_history (board : Board)
    (h : board.history = []) :
    decipherRequest board "knight takes" =
      Except.error PyErr.indexError := by
  have hpeek : board.peek = none := by simp [Board.peek, h]
  simp [decipherRequest, pySplit, pySplitAux, locations_in_tokens_fuel,
    scanGo, emptySpec, SpecificSquares.truthy, tokenKeyword, finishMove,
    take_last, hpeek, PIECES_map, TAKE_TOKENS, PROMOTE_TOKENS,
    KINGSIDE_TOKENS, QUEENSIDE_TOKENS, WRITTEN_NUMS, fileIndex, rankIndex,
    FILE_names, RANK_names, List.lookup, List.contains, List.findIdx?]

/-- Claim C8, witness: the theorem applied to the initial position. -/
theorem c8_witness :
    decipherRequest initialBoard "knight takes" =
      Except.error PyErr.indexError :=
  c8_take_last_empty_history initialBoard rfl

/-- Claim C9: the board effect of responding to a resolved command. When
the command resolves to zero or to more than one candidate the board
after responding is the board before; the single mutation point is
pushing the unique candidate.  (Resolution itself, `consider_moves`, is
embedded as a pure function of the board: it returns candidate and
reject lists and no board, so it cannot mutate the board by
construction.) -/
theorem c9_board_frame (candidates : List Move) (board : Board) :
    (candidates.length ≠ 1 → respond_to_command candidates board = board) ∧
    (∀ m, candidates = [m] →
      respond_to_command candidates board = board.boardAfter m) := by
  constructor
  · intro h
    match candidates with
    | [] => rfl
    | [m] => exact absurd rfl h
    | m :: m2 :: tl => rfl
  · intro m h
    subst h
    rfl

/-- Claim C9, witness: an empty candidate list leaves the initial board
unchanged. -/
theorem c9_witness : respond_to_command [] initialBoard = initialBoard :=
  (c9_board_frame [] initialBoard).1 (by decide)

/-- Claim C1, counterexample: on the initial position the command "pawn
on the e-file takes on e4" has capture intent, the matching pair
(e2, e4) is a legal move (first conjunct) that is not a capture (second
conjunct); the claim says such a pair is dropped and appears in neither
list, but `consider_moves` records it in the rejected list (last
conjunct: no candidates, one reject carrying exactly the pair
(12, 28)). -/
theorem c1_counterexample :
    (initialBoard.find_move 12 28 none).isSome = true ∧
    initialBoard.is_capture ⟨12, 28, none⟩ = false ∧
    cmdCap.captures = true ∧
    (cmdCap.consider_moves initialBoard).map
      (fun p => (p.1, p.2.map (fun r => (r.from_square, r.to_square)))) =
      some ([], [(12, 28)]) := by
  decide

/-- Claim C3, counterexample: on `castleBoard` the kingside castle
command yields no candidates and one reject that keeps its castling
rights but is both blocked and in check; the claim says at most one
sentence is emitted, yet `explain_no_castle` speaks two (only the
missing-rights branch returns early in the source). -/
theorem c3_counterexample :
    (castleConsider castleBoard (some "king")).1 = [] ∧
    (castleConsider castleBoard (some "king")).2 =
      [cmBlockedChecked] ∧
    (explain_no_castle (castleConsider castleBoard (some "king")).2).length
      = 2 := by
  decide

/-- Claim C3 (amended): for a castle command's rejects, a reject with
missing castling rights short-circuits to exactly the one rights
sentence; otherwise one sentence is emitted for each of the four
remaining conditions satisfied by some reject, in the fixed order
blocked path, currently in check, castling through check, castling into
check — so up to four sentences, not at most one. -/
theorem c3_castle_explanation (rejects : List CastleMove) :
    ((rejects.any fun m => !m.right_to_castle) = true →
      explain_no_castle rejects =
        ["You have already moved your king or rook."]) ∧
    ((∀ m ∈ rejects, m.right_to_castle = true) →
      (explain_no_castle rejects).length =
        (if rejects.any fun m => m.blocking_pieces != 0 then 1 else 0) +
        (if rejects.any fun m => m.in_check then 1 else 0) +
        (if rejects.any fun m => m.through_check then 1 else 0) +
        (if rejects.any fun m => m.into_check then 1 else 0)) := by
  constructor
  · intro h
    simp [explain_no_castle, h]
  · intro h
    have h0 : (rejects.any fun m => !m.right_to_castle) = false := by
      simp only [List.any_eq_false]
      intro m hm
      simp [h m hm]
    simp only [explain_no_castle, h0, Bool.false_eq_true, if_false]
    split_ifs <;> simp

/-- Claim C3, witness: the theorem applied to the blocked-and-in-check
reject, whose rights are intact, yields two sentences. -/
theorem c3_witness :
    (explain_no_castle [cmBlockedChecked]).length = 2 := by
  have h := (c3_castle_explanation [cmBlockedChecked]).2 (by decide)
  rw [h]
  decide

/-- One unfolding of the parser on the token list `["4"]`: the digit
token is a rank keyword, so the recursion point passes the very same
list on (only the color flips). -/
theorem c10_step (fuel : Nat) (turn : Bool) :
    locations_in_tokens_fuel (fuel + 1) ["4"] turn =
    locations_in_tokens_fuel fuel ["4"] (!turn) := by
  cases h : locations_in_tokens_fuel fuel ["4"] (!turn) <;>
    simp [locations_in_tokens_fuel, scanGo, h, emptySpec,
      SpecificSquares.truthy, tokenKeyword, PIECES_map, WRITTEN_NUMS,
      fileIndex, rankIndex, FILE_names, RANK_names, List.lookup,
      List.findIdx?]

/-- Claim C10, counterexample: on the token list `["4"]` the parser
recurses on the same list forever — every fuel bound is exhausted, the
Python `RecursionError` — so `locations_in_tokens` is not total. -/
theorem c10_counterexample : divergesOn ["4"] true := by
  have key : ∀ fuel turn,
      locations_in_tokens_fuel fuel ["4"] turn = none := by
    intro fuel
    induction fuel with
    | zero => intro turn; rfl
    | succ n ih => intro turn; rw [c10_step]; exact ih (!turn)
  exact fun fuel => key fuel true

/-- Totality of the token loop: if the recursion continuation is total
on lists up to length `B`, the loop terminates on every digit-free
suffix whose length fits the budget (`B` once the accumulated
specification is non-empty, one more while it is still empty). -/
theorem scanGo_total (recurse : List String → Option (List SpecificSquares))
    (B : Nat)
    (hrec : ∀ s, s.length ≤ B → (∀ tok ∈ s, rankIndex tok = none) →
      (recurse s).isSome = true) :
    ∀ (suffix : List String) (loc : SpecificSquares),
      (∀ tok ∈ suffix, rankIndex tok = none) →
      (if loc.truthy then suffix.length ≤ B else suffix.length ≤ B + 1) →
      (scanGo recurse loc suffix).isSome = true := by
  intro suffix
  induction suffix with
  | nil =>
    intro loc _ _
    simp [scanGo]
  | cons tok rest ih =>
    intro loc hdig hsz
    have hdig_rest : ∀ t ∈ rest, rankIndex t = none := fun t ht =>
      hdig t (List.mem_cons_of_mem _ ht)
    have hdig_tok : rankIndex tok = none := hdig tok (List.mem_cons_self _ _)
    have hszB : rest.length ≤ B := by
      by_cases hq : loc.truthy = true
      · rw [if_pos hq] at hsz; simp at hsz; omega
      · rw [if_neg hq] at hsz; simp at hsz; omega
    simp only [scanGo]
    by_cases h1 : ((PIECES_map.lookup tok).isSome && !loc.truthy) = true
    · rw [if_pos h1]
      exact ih _ hdig_rest (by simp [SpecificSquares.truthy]; omega)
    · rw [if_neg h1]
      by_cases h2 : (tok == "on") = true
      · rw [if_pos h2]
        exact ih _ hdig_rest (by
          by_cases hq : loc.truthy = true
          · rw [if_pos hq] at hsz ⊢; simp at hsz; omega
          · rw [if_neg hq] at hsz ⊢; simp at hsz; omega)
      · rw [if_neg h2]
        by_cases h3 : ((fileIndex tok).isSome && loc.file == none
            && loc.rank == none) = true
        · rw [if_pos h3]
          exact ih _ hdig_rest (by simp [SpecificSquares.truthy]; omega)
        · rw [if_neg h3]
          by_cases h4 : ((WRITTEN_NUMS.lookup tok).isSome
              && loc.rank == none) = true
          · rw [if_pos h4]
            have hw : (WRITTEN_NUMS.lookup tok).isSome = true :=
              (Bool.and_eq_true_iff.mp h4).1
            exact ih _ hdig_rest (by simp [SpecificSquares.truthy, hw]; omega)
          · rw [if_neg h4]
            have hkey : (recurse (if tokenKeyword tok then tok :: rest
                else rest)).isSome = true := by
              by_cases hk : tokenKeyword tok = true
              · have htruthy : loc.truthy = true := by
                  by_cases hp : (PIECES_map.lookup tok).isSome = true
                  · cases hq : loc.truthy with
                    | true => rfl
                    | false => exact absurd (by simp [hp, hq]) h1
                  · have hf : (fileIndex tok).isSome = true := by
                      have hk2 := hk
                      simp only [tokenKeyword, Bool.or_eq_true] at hk2
                      rcases hk2 with (hc | hc) | hc
                      · exact absurd hc hp
                      · exact hc
                      · rw [hdig_tok] at hc; simp at hc
                    cases hq : loc.truthy with
                    | true => rfl
                    | false =>
                      exfalso
                      have hnone : (loc.piece = none ∧ loc.file = none)
                          ∧ loc.rank = none := by
                        simpa [SpecificSquares.truthy] using hq
                      exact h3 (by simp [hf, hnone.1.2, hnone.2])
                have hlen : (tok :: rest).length ≤ B := by
                  rw [if_pos htruthy] at hsz
                  simpa using hsz
                rw [if_pos hk]
                exact hrec _ hlen hdig
              · rw [if_neg hk]
                exact hrec _ hszB hdig_rest
            cases hr : recurse (if tokenKeyword tok then tok :: rest
                else rest) with
            | none => rw [hr] at hkey; simp at hkey
            | some locs => simp [hr]

/-- Fuel generalisation of the parser's termination on digit-free
inputs: any fuel exceeding the list length succeeds, because every
recursive call passes a strictly shorter suffix. -/
theorem locations_total_aux :
    ∀ (fuel : Nat) (tokens : List String) (turn : Bool),
      tokens.length < fuel →
      (∀ tok ∈ tokens, rankIndex tok = none) →
      (locations_in_tokens_fuel fuel tokens turn).isSome = true := by
  intro fuel
  induction fuel with
  | zero => intro tokens _ h _; omega
  | succ n ih =>
    intro tokens turn hlen hdig
    simp only [locations_in_tokens_fuel]
    by_cases he : tokens.isEmpty = true
    · rw [if_pos he]; rfl
    · rw [if_neg he]
      have hne : 1 ≤ tokens.length := by
        cases tokens with
        | nil => simp at he
        | cons a l => simp
      apply scanGo_total _ (tokens.length - 1) _ tokens (emptySpec turn) hdig
      · have het : (emptySpec turn).truthy = false := by
          simp [emptySpec, SpecificSquares.truthy]
        rw [if_neg (by rw [het]; exact Bool.false_ne_true)]
        omega
      · intro s hs hd
        apply ih s (!turn) (by omega) hd

/-- Claim C10 (amended): `locations_in_tokens` terminates and returns a
(possibly empty) specification list for every token list containing no
bare digit rank token "1".."8" — fuel `tokens.length + 1` suffices
because each recursive call consumes at least one token.  On lists
where the parse reaches a digit token at the start of a group the scan
recurses on the same list forever (see the counterexample). -/
theorem c10_terminates (tokens : List String) (turn : Bool)
    (h : ∀ tok ∈ tokens, rankIndex tok = none) :
    (locations_in_tokens_fuel (tokens.length + 1) tokens turn).isSome
      = true :=
  locations_total_aux (tokens.length + 1) tokens turn (by omega) h

/-- Claim C10, witness: the theorem applied to the digit-free request
tokens "knight to e four". -/
theorem c10_witness :
    (locations_in_tokens_fuel 5 ["knight", "to", "e", "four"] true).isSome
      = true :=
  c10_terminates ["knight", "to", "e", "four"] true (by decide)

/-- A successfully constructed `RejectedMove` carries exactly the
requested origin/destination pair. -/
theorem rejected_make_pair {b : Board} {f t : Nat} {r : RejectedMove}
    (h : RejectedMove.make b f t = some r) :
    r.from_square = f ∧ r.to_square = t := by
  unfold RejectedMove.make at h
  split at h
  · cases h
  · split at h
    · cases h
    · injection h with h2
      rw [← h2]
      exact ⟨rfl, rfl⟩

/-- Membership in the occupied-square accumulation loop of
`blocking_squares`. -/
theorem testBit_occfold (l : List Nat) (g : Nat → Bool) (init : Nat)
    (i : Nat) :
    ((l.foldl (fun acc sq => if g sq then acc ||| (1 <<< sq) else acc)
      init).testBit i) =
    (init.testBit i || l.any (fun sq => g sq && sq == i)) := by
  induction l generalizing init with
  | nil => simp
  | cons x xs ih =>
    simp only [List.foldl_cons, List.any_cons, ih]
    by_cases hg : g x = true
    · rw [if_pos hg, hg]
      simp only [Nat.testBit_or, testBit_one_shift, Bool.true_and]
      rw [Bool.eq_iff_iff]
      simp only [Bool.or_eq_true, beq_iff_eq, decide_eq_true_eq]
      constructor
      · rintro ((h | h) | h)
        · exact Or.inl h
        · exact Or.inr (Or.inl h)
        · exact Or.inr (Or.inr h)
      · rintro (h | h | h)
        · exact Or.inl (Or.inl h)
        · exact Or.inl (Or.inr h)
        · exact Or.inr h
    · rw [if_neg hg]
      have hg2 : g x = false := by
        cases hq : g x
        · rfl
        · exact absurd hq hg
      rw [hg2]
      simp

/-- The loop over a bitboard's square list hits `i` exactly when the
bitboard holds `i` and the guard accepts it. -/
theorem any_occ_bbToList (bb : Nat) (g : Nat → Bool) (i : Nat)
    (hi : i < 64) :
    ((bbToList bb).any (fun sq => g sq && sq == i)) =
      (bb.testBit i && g i) := by
  rw [Bool.eq_iff_iff]
  simp only [List.any_eq_true, Bool.and_eq_true, beq_iff_eq]
  constructor
  · rintro ⟨sq, hmem, hg, hsq⟩
    subst hsq
    exact ⟨(mem_bbToList.mp hmem).2, hg⟩
  · rintro ⟨hb, hg⟩
    exact ⟨i, mem_bbToList.mpr ⟨hi, hb⟩, hg, rfl⟩

/-- Claim C4: for an occupied origin square, when the move is
geometrically feasible `blocking_squares` returns exactly the union of
the occupied squares strictly between origin and destination and the
destination square when it holds a piece of the moving piece's color;
when feasibility fails it returns the empty set unconditionally. -/
theorem c4_blocking (board : Board) (f t : Nat) (p : Piece)
    (h : board.piece_at f = some p) :
    (is_possible_move p f t = false →
      blocking_squares board f t = some 0) ∧
    (∀ i : Fin 64,
      ((blocking_squares board f t).getD 0).testBit i.val = true ↔
        (is_possible_move p f t = true ∧
          (((betweenBB f t).testBit i.val = true ∧
              (board.piece_at i.val).isSome = true) ∨
           (i.val = t ∧ ∃ q, board.piece_at t = some q ∧
              q.color = p.color)))) := by
  unfold blocking_squares
  rw [h]
  constructor
  · intro hip
    simp only [hip, Bool.false_eq_true, if_false]
  · intro i
    by_cases hip : is_possible_move p f t = true
    · simp only [hip, if_true, Option.getD_some, eq_self_iff_true]
      cases hq : board.piece_at t with
      | none =>
        rw [testBit_occfold]
        simp only [Nat.zero_testBit, Bool.false_or]
        rw [any_occ_bbToList _ _ _ i.isLt]
        simp only [Bool.and_eq_true]
        constructor
        · rintro ⟨hb, ho⟩
          exact ⟨trivial, Or.inl ⟨hb, ho⟩⟩
        · rintro ⟨_, (⟨hb, ho⟩ | ⟨_, q, hqq, _⟩)⟩
          · exact ⟨hb, ho⟩
          · cases hqq
      | some tp =>
        dsimp only
        by_cases hc : (p.color == tp.color) = true
        · rw [if_pos hc, Nat.testBit_or, testBit_occfold,
            testBit_one_shift]
          simp only [Nat.zero_testBit, Bool.false_or]
          rw [any_occ_bbToList _ _ _ i.isLt]
          simp only [Bool.or_eq_true, Bool.and_eq_true,
            decide_eq_true_eq]
          constructor
          · rintro (⟨hb, ho⟩ | hti)
            · exact ⟨trivial, Or.inl ⟨hb, ho⟩⟩
            · exact ⟨trivial, Or.inr ⟨hti.symm, tp, rfl,
                (beq_iff_eq.mp hc).symm⟩⟩
          · rintro ⟨_, (⟨hb, ho⟩ | ⟨hti, q, hqq, hqc⟩)⟩
            · exact Or.inl ⟨hb, ho⟩
            · exact Or.inr hti.symm
        · rw [if_neg hc, testBit_occfold]
          simp only [Nat.zero_testBit, Bool.false_or]
          rw [any_occ_bbToList _ _ _ i.isLt]
          simp only [Bool.and_eq_true]
          constructor
          · rintro ⟨hb, ho⟩
            exact ⟨trivial, Or.inl ⟨hb, ho⟩⟩
          · rintro ⟨_, (⟨hb, ho⟩ | ⟨hti, q, hqq, hqc⟩)⟩
            · exact ⟨hb, ho⟩
            · injection hqq with hqq2
              rw [← hqq2] at hqc
              exact absurd (beq_iff_eq.mpr hqc.symm) hc
    · have hip2 : is_possible_move p f t = false := by
        cases hq : is_possible_move p f t
        · rfl
        · exact absurd hq hip
      simp only [hip2, Bool.false_eq_true, if_false, Option.getD_some,
        Nat.zero_testBit]
      simp [hip2]

set_option maxRecDepth 4000 in
/-- Claim C5: for every well-formed specification and board, a square is
returned by `find_candidate_squares` exactly when it satisfies the
spec-side matcher `matchesSpec`: all 64 squares for an empty
specification, the given color's pawns on the file for a file-only
specification, and otherwise the intersection of the set piece / file /
rank filters (color entering through the piece filter). -/
theorem c5_find_candidate_squares (spec : SpecificSquares) (board : Board)
    (hwf : spec.WF) (sq : Fin 64) :
    (spec.find_candidate_squares board).testBit sq.val = true ↔
      matchesSpec spec board sq.val := by
  obtain ⟨hwp, hwfi, hwr⟩ := hwf
  rcases spec with ⟨c, pc, fc, rc⟩
  cases pc with
  | none =>
    cases fc with
    | none =>
      cases rc with
      | none =>
        simp [SpecificSquares.find_candidate_squares, matchesSpec, BB_ALL,
          testBit_bbOf, Nat.testBit_and, sq.isLt]
      | some rn =>
        obtain ⟨ri, hri⟩ := Option.isSome_iff_exists.mp (hwr rn rfl)
        simp [SpecificSquares.find_candidate_squares, matchesSpec, BB_ALL,
          testBit_bbOf, Nat.testBit_and, RANKSbb, hri, sq.isLt]
        omega
    | some fn =>
      obtain ⟨fi, hfi⟩ := Option.isSome_iff_exists.mp (hwfi fn rfl)
      cases rc with
      | none =>
        simp [SpecificSquares.find_candidate_squares, matchesSpec,
          testBit_bbOf, Nat.testBit_and, FILESbb, Board.piecesBB, hfi,
          sq.isLt]
        intro _
        omega
      | some rn =>
        obtain ⟨ri, hri⟩ := Option.isSome_iff_exists.mp (hwr rn rfl)
        simp [SpecificSquares.find_candidate_squares, matchesSpec, BB_ALL,
          testBit_bbOf, Nat.testBit_and, FILESbb, RANKSbb, hfi, hri,
          sq.isLt]
        omega
  | some pn =>
    obtain ⟨pt, hpt⟩ := Option.isSome_iff_exists.mp (hwp pn rfl)
    cases fc with
    | none =>
      cases rc with
      | none =>
        simp [SpecificSquares.find_candidate_squares, matchesSpec, BB_ALL,
          testBit_bbOf, Nat.testBit_and, Board.piecesBB, hpt, sq.isLt]
      | some rn =>
        obtain ⟨ri, hri⟩ := Option.isSome_iff_exists.mp (hwr rn rfl)
        simp [SpecificSquares.find_candidate_squares, matchesSpec, BB_ALL,
          testBit_bbOf, Nat.testBit_and, Board.piecesBB, RANKSbb, hpt,
          hri, sq.isLt]
        intro _
        omega
    | some fn =>
      obtain ⟨fi, hfi⟩ := Option.isSome_iff_exists.mp (hwfi fn rfl)
      cases rc with
      | none =>
        simp [SpecificSquares.find_candidate_squares, matchesSpec, BB_ALL,
          testBit_bbOf, Nat.testBit_and, Board.piecesBB, FILESbb, hpt,
          hfi, sq.isLt]
        intro _
        omega
      | some rn =>
        obtain ⟨ri, hri⟩ := Option.isSome_iff_exists.mp (hwr rn rfl)
        simp [SpecificSquares.find_candidate_squares, matchesSpec, BB_ALL,
          testBit_bbOf, Nat.testBit_and, Board.piecesBB, FILESbb, RANKSbb,
          hpt, hfi, hri, sq.isLt]
        constructor
        · rintro ⟨⟨hP, h1⟩, h2⟩
          exact ⟨hP, h1.symm, h2.symm⟩
        · rintro ⟨hP, h1, h2⟩
          exact ⟨⟨hP, h1.symm⟩, h2.symm⟩

/-- Claim C4, witness: king e1 to e3 is infeasible so the set is empty;
rook a1 to a3 is feasible and blocked by the pawn on a2 (square 8). -/
theorem c4_witness :
    blocking_squares initialBoard 4 20 = some 0 ∧
    ((blocking_squares initialBoard 0 16).getD 0).testBit 8 = true := by
  constructor
  · exact (c4_blocking initialBoard 4 20 ⟨.king, true⟩ (by decide)).1
      (by decide)
  · exact ((c4_blocking initialBoard 0 16 ⟨.rook, true⟩ (by decide)).2
      ⟨8, by omega⟩).mpr ⟨by decide, Or.inl ⟨by decide, by decide⟩⟩

/-- Claim C5, witness: the file-only specification "pawn on the e-file"
matches e2 (square 12) on the initial position. -/
theorem c5_witness :
    ((⟨true, none, some "e", none⟩ : SpecificSquares).find_candidate_squares
      initialBoard).testBit 12 = true := by
  have hwf : (⟨true, none, some "e", none⟩ : SpecificSquares).WF := by
    refine ⟨?_, ?_, ?_⟩
    · intro pn h
      cases h
    · intro fn h
      cases h
      decide
    · intro rn h
      cases h
  refine (c5_find_candidate_squares ⟨true, none, some "e", none⟩
    initialBoard hwf ⟨12, by omega⟩).mpr ?_
  simp [matchesSpec]
  exact ⟨by decide, by decide⟩

/-- A pair classified as a reject got its entry from
`RejectedMove.make` on exactly that pair. -/
theorem considerPair_rej {b : Board} {cap : Bool} {pr : Option PieceType}
    {f t : Nat} {r : RejectedMove}
    (h : considerPair b cap pr f t = some (.rej r)) :
    RejectedMove.make b f t = some r := by
  unfold considerPair at h
  cases hf : b.find_move f t pr with
  | some cand =>
    rw [hf] at h
    dsimp only at h
    split at h
    · cases hm : RejectedMove.make b f t with
      | none => rw [hm] at h; cases h
      | some r2 =>
        rw [hm] at h
        simp only [Option.map, Option.some.injEq,
          Classified.rej.injEq] at h
        exact congrArg some h
    · injection h with h2
      cases h2
  | none =>
    rw [hf] at h
    dsimp only at h
    cases hm : RejectedMove.make b f t with
    | none => rw [hm] at h; cases h
    | some r2 =>
      rw [hm] at h
      simp only [Option.map, Option.some.injEq,
        Classified.rej.injEq] at h
      exact congrArg some h

/-- Inner loop of `consider_moves`: for a fixed origin square, the two
result lists are exactly the per-destination classification outcomes,
and every destination is classified. -/
theorem considerInner_parts {b : Board} {cap : Bool} {pr : Option PieceType}
    {f : Nat} {ts : List Nat} {cs : List Move} {rs : List RejectedMove}
    (h : considerInner b cap pr f ts = some (cs, rs)) :
    cs = (ts.map (fun t => ((f, t) : Nat × Nat))).filterMap
        (candFun b cap pr) ∧
    rs = (ts.map (fun t => ((f, t) : Nat × Nat))).filterMap
        (rejFun b cap pr) ∧
    (∀ t2 ∈ ts, (considerPair b cap pr f t2).isSome = true) := by
  induction ts generalizing cs rs with
  | nil =>
    rw [considerInner] at h
    injection h with h2
    injection h2 with ha hb
    rw [← ha, ← hb]
    exact ⟨rfl, rfl, fun t2 ht2 => absurd ht2 (List.not_mem_nil t2)⟩
  | cons t ts ih =>
    rw [considerInner] at h
    cases hp : considerPair b cap pr f t with
    | none => rw [hp] at h; cases h
    | some cl =>
      rw [hp] at h
      cases cl with
      | cand m =>
        cases hrest : considerInner b cap pr f ts with
        | none => rw [hrest] at h; cases h
        | some p =>
          obtain ⟨cs2, rs2⟩ := p
          rw [hrest] at h
          dsimp only [Option.map] at h
          injection h with h2
          injection h2 with ha hb
          rw [← ha, ← hb]
          obtain ⟨ih1, ih2, ih3⟩ := ih hrest
          have hFc : candFun b cap pr (f, t) = some m := by
            unfold candFun
            dsimp only
            rw [hp]
            rfl
          have hFr : rejFun b cap pr (f, t) = none := by
            unfold rejFun
            dsimp only
            rw [hp]
            rfl
          refine ⟨?_, ?_, ?_⟩
          · rw [List.map_cons, List.filterMap_cons_some hFc, ih1]
          · rw [List.map_cons, List.filterMap_cons_none hFr]
            exact ih2
          · intro t2 ht2
            rcases List.mem_cons.mp ht2 with h3 | h3
            · rw [h3, hp]; rfl
            · exact ih3 t2 h3
      | rej r =>
        cases hrest : considerInner b cap pr f ts with
        | none => rw [hrest] at h; cases h
        | some p =>
          obtain ⟨cs2, rs2⟩ := p
          rw [hrest] at h
          dsimp only [Option.map] at h
          injection h with h2
          injection h2 with ha hb
          rw [← ha, ← hb]
          obtain ⟨ih1, ih2, ih3⟩ := ih hrest
          have hFc : candFun b cap pr (f, t) = none := by
            unfold candFun
            dsimp only
            rw [hp]
            rfl
          have hFr : rejFun b cap pr (f, t) = some r := by
            unfold rejFun
            dsimp only
            rw [hp]
            rfl
          refine ⟨?_, ?_, ?_⟩
          · rw [List.map_cons, List.filterMap_cons_none hFc]
            exact ih1
          · rw [List.map_cons, List.filterMap_cons_some hFr, ih2]
          · intro t2 ht2
            rcases List.mem_cons.mp ht2 with h3 | h3
            · rw [h3, hp]; rfl
            · exact ih3 t2 h3

/-- Outer loop of `consider_moves`: over the full Cartesian product,
the two result lists are exactly the per-pair classification outcomes
in product order, and every pair is classified. -/
theorem considerLoop_parts {b : Board} {cap : Bool} {pr : Option PieceType}
    {fs ts : List Nat} {cs : List Move} {rs : List RejectedMove}
    (h : considerLoop b cap pr fs ts = some (cs, rs)) :
    cs = (prodPairs fs ts).filterMap (candFun b cap pr) ∧
    rs = (prodPairs fs ts).filterMap (rejFun b cap pr) ∧
    (∀ p ∈ prodPairs fs ts, (considerPair b cap pr p.1 p.2).isSome
      = true) := by
  induction fs generalizing cs rs with
  | nil =>
    rw [considerLoop] at h
    injection h with h2
    injection h2 with ha hb
    rw [← ha, ← hb]
    exact ⟨rfl, rfl, fun p hp => absurd hp (List.not_mem_nil p)⟩
  | cons f fs ih =>
    rw [considerLoop] at h
    cases hin : considerInner b cap pr f ts with
    | none => rw [hin] at h; cases h
    | some p =>
      obtain ⟨cs1, rs1⟩ := p
      rw [hin] at h
      cases hrest : considerLoop b cap pr fs ts with
      | none => rw [hrest] at h; cases h
      | some q =>
        obtain ⟨cs2, rs2⟩ := q
        rw [hrest] at h
        dsimp only [Option.map] at h
        injection h with h2
        injection h2 with ha hb
        rw [← ha, ← hb]
        obtain ⟨in1, in2, in3⟩ := considerInner_parts hin
        obtain ⟨ih1, ih2, ih3⟩ := ih hrest
        refine ⟨?_, ?_, ?_⟩
        · rw [prodPairs, List.filterMap_append, in1, ih1]
        · rw [prodPairs, List.filterMap_append, in2, ih2]
        · intro p hp
          rw [prodPairs] at hp
          rcases List.mem_append.mp hp with h3 | h3
          · obtain ⟨t2, ht2, hpt⟩ := List.mem_map.mp h3
            rw [← hpt]
            exact in3 t2 ht2
          · exact ih3 p h3

/-- Each classified pair contributes exactly one entry across the two
filtered lists, so their lengths sum to the number of pairs. -/
theorem partition_length (b : Board) (cap : Bool) (pr : Option PieceType)
    (l : List (Nat × Nat))
    (h : ∀ p ∈ l, (considerPair b cap pr p.1 p.2).isSome = true) :
    (l.filterMap (candFun b cap pr)).length +
      (l.filterMap (rejFun b cap pr)).length = l.length := by
  induction l with
  | nil => simp
  | cons p l ih =>
    have hp := h p (List.mem_cons_self p l)
    obtain ⟨cl, hcl⟩ := Option.isSome_iff_exists.mp hp
    have ihl := ih (fun q hq => h q (List.mem_cons_of_mem p hq))
    cases cl with
    | cand m =>
      have hFc : candFun b cap pr p = some m := by
        unfold candFun
        rw [hcl]
        rfl
      have hFr : rejFun b cap pr p = none := by
        unfold rejFun
        rw [hcl]
        rfl
      rw [List.filterMap_cons_some hFc, List.filterMap_cons_none hFr,
        List.length_cons, List.length_cons]
      omega
    | rej r =>
      have hFc : candFun b cap pr p = none := by
        unfold candFun
        rw [hcl]
        rfl
      have hFr : rejFun b cap pr p = some r := by
        unfold rejFun
        rw [hcl]
        rfl
      rw [List.filterMap_cons_none hFc, List.filterMap_cons_some hFr,
        List.length_cons, List.length_cons]
      omega

/-- Claim C1 (amended): whenever `consider_moves` completes, every
(origin, destination) pair of the Cartesian product of the resolved
square sets is classified (first conjunct) and contributes exactly one
entry to exactly one of the two lists: the candidate and rejected lists
are precisely the per-pair classification outcomes in product order
(second and third conjuncts), so their lengths sum to the product size
(fourth conjunct).  No pair is dropped: a legal non-capturing move
under capture intent is classified as a reject (see the
counterexample).  A rejected entry carries exactly its pair's squares
(fifth conjunct); a candidate entry carries the engine's returned move,
which for a castle-legal king-to-rook pair is normalized by `find_move`
to the king-two-step move (see the witness), so candidates are matched
to pairs by classification, not by squares. -/
theorem c1_pair_partition (board : Board) (cmd : CommandMoveSpec)
    (cs : List Move) (rs : List RejectedMove)
    (h : cmd.consider_moves board = some (cs, rs)) :
    (∀ p ∈ cmd.productPairs board,
      (considerPair board cmd.captures cmd.promoPiece p.1 p.2).isSome
        = true) ∧
    cs = (cmd.productPairs board).filterMap
      (candFun board cmd.captures cmd.promoPiece) ∧
    rs = (cmd.productPairs board).filterMap
      (rejFun board cmd.captures cmd.promoPiece) ∧
    cs.length + rs.length = (cmd.productPairs board).length ∧
    (∀ r ∈ rs, (r.from_square, r.to_square) ∈ cmd.productPairs board) := by
  unfold CommandMoveSpec.consider_moves at h
  dsimp only at h
  obtain ⟨h1, h2, h3⟩ := considerLoop_parts h
  refine ⟨h3, h1, h2, ?_, ?_⟩
  · rw [h1, h2]
    exact partition_length _ _ _ _ h3
  · intro r hr
    rw [h2] at hr
    obtain ⟨p, hpmem, hpr⟩ := List.mem_filterMap.mp hr
    unfold rejFun at hpr
    cases hcp : considerPair board cmd.captures cmd.promoPiece p.1 p.2 with
    | none => rw [hcp] at hpr; cases hpr
    | some cl =>
      rw [hcp] at hpr
      cases cl with
      | cand m => cases hpr
      | rej r2 =>
        have hr2 : r2 = r := by
          simpa [rejOf] using hpr
        rw [← hr2]
        have hmk := rejected_make_pair (considerPair_rej hcp)
        have hpair : (r2.from_square, r2.to_square) = p := by
          rw [hmk.1, hmk.2]
        rw [hpair]
        exact hpmem

/-- Claim C1, witness: the theorem applied to the SAN-shorthand command
"king h one" on a castle-legal board, whose single enumerated pair
(e1, h1) is classified as the normalized candidate move e1-g1; the list
lengths sum to the product size. -/
theorem c1_witness :
    ([(⟨4, 6, none⟩ : Move)].length + ([] : List RejectedMove).length
      = (cmdCastleSAN.productPairs castleOKBoard).length) := by
  have h := c1_pair_partition castleOKBoard cmdCastleSAN [⟨4, 6, none⟩] []
    (by decide)
  exact h.2.2.2.1
